import Mathlib

/-!
Verification of the SportLife gym loading tracker
(`fetch_gym_data.py` and `plot_gym_data.py`).

Shallow embedding conventions:
* A wall-clock datetime is an `Int` counting minutes since a fixed epoch;
  its calendar date is the floor division by 1440 (minutes per day) and its
  time of day is the floor remainder, matching Python `datetime`/`date`
  arithmetic on minute granularity (both scripts truncate to the minute).
* A CSV line of a partition file is modelled as its two comma-separated
  fields, a `String × String` pair — every line the collector writes and
  every line the claims discuss has exactly two fields.
* Python `int(s)` is modelled on the fragment exercised here: optional
  surrounding whitespace, an optional sign, then decimal digits
  (underscore separators are not modelled).
* `datetime.strptime(s, "%H:%M")`-style parsing of the time field is
  modelled by `parseHM`: one or two digits for the hour, a colon, one or
  two digits for the minutes, hour ≤ 23 and minutes ≤ 59, nothing else.
-/

namespace Gym

/-! ### Decimal digits: Python `str` / `int` on integers -/

/-- Value of a decimal digit character, `none` on any other character. -/
def digitVal (c : Char) : Option Nat :=
  if '0' ≤ c ∧ c ≤ '9' then some (c.toNat - '0'.toNat) else none

/-- Decimal digit characters `'0'`..`'9'`. -/
def digitChar (d : Nat) : Char := Char.ofNat (48 + d)

/-- Fuel-driven core of `natDigits` (structural recursion, so that the
kernel can evaluate it; the fuel is irrelevant once it exceeds `n`). -/
def natDigitsGo : Nat → Nat → List Char
  | 0, _ => []
  | fuel + 1, n =>
    if n < 10 then [digitChar n]
    else natDigitsGo fuel (n / 10) ++ [digitChar (n % 10)]

/-- Decimal digit list of a natural number, most significant first
(the digits Python `str` prints for a non-negative integer). -/
def natDigits (n : Nat) : List Char := natDigitsGo (n + 1) n

/-- Python `str` on a natural number. -/
def natToStr (n : Nat) : String := ⟨natDigits n⟩

/-- Python `str` on an integer (a leading `-` for negative values). -/
def intToStr : Int → String
  | .ofNat n => natToStr n
  | .negSucc n => "-" ++ natToStr (n + 1)

/-- Accumulating decimal parser: consumes digit characters, `none` at the
first non-digit. -/
def parseDigitsAux (acc : Nat) : List Char → Option Nat
  | [] => some acc
  | c :: cs =>
    match digitVal c with
    | some d => parseDigitsAux (acc * 10 + d) cs
    | none => none

/-- Parse a non-empty all-digit character list as a natural number. -/
def parseDigits : List Char → Option Nat
  | [] => none
  | cs => parseDigitsAux 0 cs

/-- Strip leading and trailing whitespace, as Python `int` does to its
string argument. -/
def pyStrip (cs : List Char) : List Char :=
  ((cs.dropWhile Char.isWhitespace).reverse.dropWhile Char.isWhitespace).reverse

/-- Sign-and-digits part of `pyInt`, after whitespace stripping. -/
def pyIntList : List Char → Option Int
  | [] => none
  | c :: rest =>
    if c = '-' then (parseDigits rest).map (fun n => -(n : Int))
    else if c = '+' then (parseDigits rest).map (fun n => (n : Int))
    else (parseDigits (c :: rest)).map (fun n => (n : Int))

/-- Python `int(s)`: optional surrounding whitespace, optional sign,
decimal digits; `none` models the `ValueError` raised otherwise. -/
def pyInt (s : String) : Option Int := pyIntList (pyStrip s.data)

/-! ### Times of day: `strftime("%H:%M")` and `strptime("%H:%M")` -/

/-- Zero-padded two-digit rendering used by `strftime` fields. -/
def pad2 (n : Nat) : String := if n < 10 then ("0") ++ natToStr n else natToStr n

/-- Models `now.strftime("%H:%M")` for a time of day given in minutes. -/
def formatHM (tod : Nat) : String := pad2 (tod / 60) ++ ":" ++ pad2 (tod % 60)

/-- Bounds checks of `%H:%M`: one or two digit characters for each
field, hour ≤ 23, minutes ≤ 59; yields minutes since midnight. -/
def hmOf (hd ms : List Char) : Option Nat :=
  if 1 ≤ hd.length ∧ hd.length ≤ 2 ∧ 1 ≤ ms.length ∧ ms.length ≤ 2 ∧
      ms.all (fun c => (digitVal c).isSome) then
    match parseDigits hd, parseDigits ms with
    | some h, some m => if h ≤ 23 ∧ m ≤ 59 then some (h * 60 + m) else none
    | _, _ => none
  else none

/-- Core of `parseHM`: the leading digit run, then a colon, then the
minutes field. -/
def parseHMList (cs : List Char) : Option Nat :=
  match cs.dropWhile (fun c => (digitVal c).isSome) with
  | ':' :: ms => hmOf (cs.takeWhile fun c => (digitVal c).isSome) ms
  | _ => none

/-- Models `datetime.strptime(f"\x7bfile_date\x7d \x7btime_str\x7d", "%Y-%m-%d %H:%M")`,
restricted to the time part (the date part is printed by the program
itself and always re-parses): minutes since midnight, or `none` for the
`ValueError` on an unparseable time. -/
def parseHM (s : String) : Option Nat := parseHMList s.data

/-! ### Collector: `fetch_gym_data.py` -/

/-- Everything outside the process that `fetch_gym_load` observes:
either `requests.post` raises a `RequestException` (network failure or
timeout), or it yields a response with a status code and a body. The
body is `none` when it is not valid JSON (`response.json()` raises a
`ValueError`), and otherwise a top-level JSON object mapping field names
to integers (the shape the SportLife endpoint answers with). -/
inductive FetchInput where
  | netFail
  | resp (status : Nat) (body : Option (List (String × Int)))

/-- Python `dict.get` on the association list produced by JSON parsing;
on duplicate keys the last binding wins, as in `dict` construction. -/
def pyGet (obj : List (String × Int)) (k : String) : Option Int :=
  obj.foldl (fun acc kv => if kv.1 = k then some kv.2 else acc) none

/-- Models `response.raise_for_status()`, which raises an `HTTPError` exactly for
status codes 400–599. -/
def raiseForStatus (status : Nat) : Bool := decide (400 ≤ status ∧ status < 600)

/-- Model of `fetch_gym_load` together with whether its `except` branch printed
the "Error fetching data" message: the `try` body posts the request,
checks the status, decodes JSON and returns `data.get("number")`; any
`RequestException` / `ValueError` / `KeyError` is caught, logged and
turned into `None`. -/
def fetch_gym_load_logged : FetchInput → Option Int × Bool
  | .netFail => (none, true)
  | .resp status body =>
    if raiseForStatus status then (none, true)
    else
      match body with
      | none => (none, true)
      | some obj => (pyGet obj ("number"), false)

/-- The value `fetch_gym_load` returns. -/
def fetch_gym_load (input : FetchInput) : Option Int :=
  (fetch_gym_load_logged input).1

/-- Contents of one partition file `YYYY-MM-DD.csv`: the list of its
lines, each line as its two comma-separated fields. -/
structure CsvFile where
  lines : List (String × String)
deriving DecidableEq

/-- Model of `save_to_csv(count)` run at wall-clock minute `now`: if the file for
today does not exist yet, start it with the `time,count` header; append
one `HH:MM,<count>` row. Returns the new file contents. -/
def save_to_csv (now : Int) (count : Int) (file : Option CsvFile) : CsvFile :=
  let time_str := formatHM (now.fmod 1440).toNat
  let prev : List (String × String) :=
    match file with
    | none => [("time", "count")]
    | some f => f.lines
  ⟨prev ++ [(time_str, intToStr count)]⟩

/-- Messages the collector prints. -/
inductive CollectMsg where
  | errorFetching
  | failedToFetch
  | saved (time_str : String) (count : Int)
deriving DecidableEq

/-- The collector's `main` at wall-clock minute `now`, acting on the
partition file for the current date: fetch once; on a reading, record
it; otherwise print the failure notice and write nothing. Returns the
file for today after the run and the printed messages. -/
def collect_main (input : FetchInput) (now : Int) (todayFile : Option CsvFile) :
    Option CsvFile × List CollectMsg :=
  match fetch_gym_load_logged input with
  | (some count, logged) =>
    let f := save_to_csv now count todayFile
    (some f, (if logged then [CollectMsg.errorFetching] else []) ++
      [CollectMsg.saved (formatHM (now.fmod 1440).toNat) count])
  | (none, logged) =>
    (todayFile, (if logged then [CollectMsg.errorFetching] else []) ++
      [CollectMsg.failedToFetch])

/-! ### Reporter: `plot_gym_data.py` -/

/-- One `*.csv` file of the data directory, as the reporter sees it: the
date parsed from its `YYYY-MM-DD` stem (as days since the epoch) and its
lines. Files whose stem is not a date are skipped by the source before
any of the behaviour modelled here and are not represented. -/
structure Partition where
  date : Int
  lines : List (String × String)
deriving DecidableEq

/-- The store: the `*.csv` files of the data directory. On a filesystem
the dates are pairwise distinct (one file per date); `sorted(...)` on the
`YYYY-MM-DD` filenames is sorting by date. -/
abbrev Store := List Partition

/-- Order on partitions by date: the order `sorted(...)` on `YYYY-MM-DD`
filenames realises. -/
def dateLE (p q : Partition) : Prop := p.date ≤ q.date

instance : DecidableRel dateLE := fun p q => Int.decLe p.date q.date

instance : IsTotal Partition dateLE := ⟨fun p q => Int.le_total p.date q.date⟩

instance : IsTrans Partition dateLE := ⟨fun _ _ _ h1 h2 => Int.le_trans h1 h2⟩

/-- Filename order `sorted(DATA_DIR.glob("*.csv"))`: ascending by date
(lexicographic order on `YYYY-MM-DD` names is date order); Python's
stable sort is modelled by insertion sort. -/
def sortStore (s : Store) : List Partition :=
  s.insertionSort dateLE

/-- Lookup `row[k]` for a `csv.DictReader` row: the header line names the
fields; on duplicate header names the later one wins (as in `dict`);
`none` models the `KeyError` when `k` is not a field name. -/
def dictGet (header row : String × String) (k : String) : Option String :=
  if header.2 = k then some row.2
  else if header.1 = k then some row.1
  else none

/-- The body of the row loop, up to the window filter: look up the
`time` and `count` fields, convert the count with `int`, parse the full
timestamp from the partition date and the time string. `none` models the
caught `ValueError` / `KeyError` that makes the loop skip the row. -/
def processRow (date : Int) (header row : String × String) : Option (Int × Int) := do
  let time_str ← dictGet header row ("time")
  let count_str ← dictGet header row ("count")
  let count ← pyInt count_str
  let hm ← parseHM time_str
  pure (date * 1440 + hm, count)

/-- The data rows (under a given header) that survive parsing and the
per-row window filter `dt >= cutoff`, as (timestamp, count) pairs in
file order. -/
def rowPairs (date cutoff : Int) (header : String × String)
    (rows : List (String × String)) : List (Int × Int) :=
  (rows.filterMap (processRow date header)).filter fun pr => cutoff ≤ pr.1

/-- The rows of one non-skipped partition that survive parsing and the
window filter. An empty file has no header, so `DictReader` yields no
rows. -/
def partitionPairs (cutoff : Int) (p : Partition) : List (Int × Int) :=
  match p.lines with
  | [] => []
  | header :: rows => rowPairs p.date cutoff header rows

/-- The row loop of `load_data` over one partition file, appending each
kept row's timestamp and count to the two accumulator lists. -/
def loadRows (date cutoff : Int) (header : String × String) :
    List (String × String) → List Int × List Int → List Int × List Int
  | [], acc => acc
  | row :: rows, acc =>
    match processRow date header row with
    | some (dt, c) =>
      if cutoff ≤ dt then loadRows date cutoff header rows (acc.1 ++ [dt], acc.2 ++ [c])
      else loadRows date cutoff header rows acc
    | none => loadRows date cutoff header rows acc

/-- The file loop of `load_data`: skip a partition whose date is more
than one day before the cutoff's date, read the others row by row. -/
def loadFiles (cutoff : Int) :
    List Partition → List Int × List Int → List Int × List Int
  | [], acc => acc
  | p :: ps, acc =>
    if p.date < cutoff.fdiv 1440 - 1 then loadFiles cutoff ps acc
    else
      match p.lines with
      | [] => loadFiles cutoff ps acc
      | header :: rows => loadFiles cutoff ps (loadRows p.date cutoff header rows acc)

/-- Model of `load_data(hours)` run at wall-clock minute `now`: cutoff is
`now - hours*60`; files are visited in sorted filename order; returns
the parallel `timestamps` and `counts` lists. -/
def load_data (now : Int) (hours : Nat) (store : Store) : List Int × List Int :=
  loadFiles (now - hours * 60) (sortStore store) ([], [])

/-- Variant of `load_data` whose file loop lacks the date pre-filter
(the `file_date < cutoff.date() - timedelta(days=1)` skip); used to state
the refinement claim about the pre-filter. -/
def loadFilesAll (cutoff : Int) :
    List Partition → List Int × List Int → List Int × List Int
  | [], acc => acc
  | p :: ps, acc =>
    match p.lines with
    | [] => loadFilesAll cutoff ps acc
    | header :: rows => loadFilesAll cutoff ps (loadRows p.date cutoff header rows acc)

/-- Variant `load_data_unfiltered`: `load_data` with the date pre-filter removed. -/
def load_data_unfiltered (now : Int) (hours : Nat) (store : Store) : List Int × List Int :=
  loadFilesAll (now - hours * 60) (sortStore store) ([], [])

/-- Occupancy threshold of the chart. -/
def THRESHOLD : Int := 140

/-- Default window of the reporter, in hours. -/
def HOURS_TO_SHOW : Nat := 96

/-- Bar colour of one point: red at or above the threshold, green
below. -/
def colorFor (c : Int) : String :=
  if THRESHOLD ≤ c then ("#e74c3c") else ("#2ecc71")

/-- The chart image written by `plot_chart`, reduced to the observable
numbers the claims are about: the per-point colours and the reported
point count. -/
structure ChartArtifact where
  colors : List String
  nPoints : Nat
deriving DecidableEq

/-- Result of `plot_chart`: on an empty series it prints "No data to
plot" and returns without touching the output file; otherwise it renders
and saves the chart. -/
inductive RenderResult where
  | noData
  | saved (artifact : ChartArtifact)
deriving DecidableEq

/-- Model of `plot_chart(timestamps, counts)`. -/
def plot_chart (timestamps counts : List Int) : RenderResult :=
  if timestamps.isEmpty then .noData
  else .saved ⟨counts.map colorFor, counts.length⟩

/-- The per-row timestamps a partition's parseable rows denote, in file
order and before the window filter (used to state that a partition's
rows are chronological). -/
def partitionTimes (p : Partition) : List Int :=
  match p.lines with
  | [] => []
  | header :: rows => rows.filterMap fun r => (processRow p.date header r).map Prod.fst

/-- The partition-level pre-filter of `load_data`, as a predicate: the
partitions that are *not* skipped. -/
def keepFile (cutoff : Int) (p : Partition) : Bool :=
  !(p.date < cutoff.fdiv 1440 - 1)

/-- Surviving pairs of a partition list, keeping only non-skipped
partitions. -/
def filesPairs (cutoff : Int) (ps : List Partition) : List (Int × Int) :=
  ((ps.filter (keepFile cutoff)).map (partitionPairs cutoff)).flatten

/-- Surviving pairs of a partition list with no partition skipped. -/
def allPairs (cutoff : Int) (ps : List Partition) : List (Int × Int) :=
  (ps.map (partitionPairs cutoff)).flatten

/-- The (timestamp, count) pairs `load_data` keeps, partition by
partition: kept partitions in sorted order, each contributing its
surviving rows in file order. -/
def loadPairs (now : Int) (hours : Nat) (store : Store) : List (Int × Int) :=
  filesPairs (now - hours * 60) (sortStore store)

/-! ### Lemmas: decimal printing and parsing -/

theorem natDigitsGo_congr : ∀ f₁ f₂ n : Nat, n < f₁ → n < f₂ →
    natDigitsGo f₁ n = natDigitsGo f₂ n := by
  intro f₁
  induction f₁ with
  | zero => intro f₂ n h; omega
  | succ g ih =>
    intro f₂ n h₁ h₂
    cases f₂ with
    | zero => omega
    | succ h =>
      simp only [natDigitsGo]
      by_cases hn : n < 10
      · simp [hn]
      · have hdiv : n / 10 < n := Nat.div_lt_self (by omega) (by decide)
        simp only [if_neg hn]
        rw [ih h (n / 10) (by omega) (by omega)]

theorem natDigits_eq (n : Nat) :
    natDigits n = if n < 10 then [digitChar n]
      else natDigits (n / 10) ++ [digitChar (n % 10)] := by
  by_cases hn : n < 10
  · simp [natDigits, natDigitsGo, hn]
  · have hdiv : n / 10 < n := Nat.div_lt_self (by omega) (by decide)
    have h1 : natDigits n = natDigitsGo n (n / 10) ++ [digitChar (n % 10)] := by
      show natDigitsGo (n + 1) n = _
      rw [natDigitsGo]
      exact if_neg hn
    rw [h1, if_neg hn]
    have h2 : natDigits (n / 10) = natDigitsGo (n / 10 + 1) (n / 10) := rfl
    rw [h2, natDigitsGo_congr n (n / 10 + 1) (n / 10) (by omega) (by omega)]

theorem digitVal_digitChar {d : Nat} (h : d < 10) :
    digitVal (digitChar d) = some d := by
  interval_cases d <;> decide

theorem natDigits_digits (n : Nat) : ∀ c ∈ natDigits n, (digitVal c).isSome := by
  induction n using Nat.strong_induction_on with
  | _ n ih =>
    rw [natDigits_eq]
    by_cases hn : n < 10
    · simp only [if_pos hn, List.mem_singleton]
      rintro c rfl
      rw [digitVal_digitChar hn]; rfl
    · simp only [if_neg hn, List.mem_append, List.mem_singleton]
      rintro c (hc | rfl)
      · exact ih (n / 10) (Nat.div_lt_self (by omega) (by decide)) c hc
      · rw [digitVal_digitChar (Nat.mod_lt _ (by decide))]; rfl

theorem natDigits_ne_nil (n : Nat) : natDigits n ≠ [] := by
  rw [natDigits_eq]
  by_cases hn : n < 10 <;> simp [hn]

theorem parseDigitsAux_append (acc : Nat) (xs ys : List Char) :
    parseDigitsAux acc (xs ++ ys) =
      (parseDigitsAux acc xs).bind fun a => parseDigitsAux a ys := by
  induction xs generalizing acc with
  | nil => simp [parseDigitsAux]
  | cons c cs ih =>
    simp only [List.cons_append, parseDigitsAux]
    cases digitVal c with
    | none => rfl
    | some d => exact ih (acc * 10 + d)

theorem parseDigitsAux_natDigits (n acc : Nat) :
    parseDigitsAux acc (natDigits n) = some (acc * 10 ^ (natDigits n).length + n) := by
  induction n using Nat.strong_induction_on generalizing acc with
  | _ n ih =>
    rw [natDigits_eq]
    by_cases hn : n < 10
    · simp only [if_pos hn, parseDigitsAux, digitVal_digitChar hn, List.length_singleton,
        pow_one]
    · have hdiv : n / 10 < n := Nat.div_lt_self (by omega) (by decide)
      simp only [if_neg hn, parseDigitsAux_append, ih (n / 10) hdiv acc, Option.some_bind,
        parseDigitsAux, digitVal_digitChar (@Nat.mod_lt n 10 (by decide)),
        List.length_append, List.length_singleton]
      congr 1
      have hmod : 10 * (n / 10) + n % 10 = n := Nat.div_add_mod n 10
      rw [pow_succ]
      calc (acc * 10 ^ (natDigits (n / 10)).length + n / 10) * 10 + n % 10
          = acc * (10 ^ (natDigits (n / 10)).length * 10) + (10 * (n / 10) + n % 10) := by
            ring
        _ = acc * (10 ^ (natDigits (n / 10)).length * 10) + n := by rw [hmod]

theorem parseDigits_natDigits (n : Nat) : parseDigits (natDigits n) = some n := by
  have h := parseDigitsAux_natDigits n 0
  obtain ⟨c, cs, hcs⟩ : ∃ c cs, natDigits n = c :: cs := by
    cases h' : natDigits n with
    | nil => exact absurd h' (natDigits_ne_nil n)
    | cons c cs => exact ⟨c, cs, rfl⟩
  rw [hcs] at h ⊢
  simpa [parseDigits] using h

theorem digitVal_isSome {c : Char} (h : (digitVal c).isSome) : '0' ≤ c ∧ c ≤ '9' := by
  by_contra hc
  simp [digitVal, hc] at h

theorem digit_not_whitespace {c : Char} (h : (digitVal c).isSome) :
    ¬ c.isWhitespace = true := by
  obtain ⟨h0, _⟩ := digitVal_isSome h
  intro hw
  simp only [Char.isWhitespace, Bool.or_eq_true, decide_eq_true_eq] at hw
  rcases hw with ((rfl | rfl) | rfl) | rfl <;> exact absurd h0 (by decide)

theorem digit_ne_sign {c : Char} (h : (digitVal c).isSome) : c ≠ '-' ∧ c ≠ '+' := by
  obtain ⟨h0, _⟩ := digitVal_isSome h
  constructor <;> rintro rfl <;> exact absurd h0 (by decide)

theorem pyStrip_eq_self {cs : List Char} (h : ∀ c ∈ cs, ¬ c.isWhitespace = true) :
    pyStrip cs = cs := by
  unfold pyStrip
  have h1 : cs.dropWhile Char.isWhitespace = cs := by
    cases cs with
    | nil => rfl
    | cons a l => exact List.dropWhile_cons_of_neg (h a (List.mem_cons_self a l))
  rw [h1]
  have h2 : cs.reverse.dropWhile Char.isWhitespace = cs.reverse := by
    cases hr : cs.reverse with
    | nil => rfl
    | cons a l =>
      refine List.dropWhile_cons_of_neg (h a ?_)
      have : a ∈ cs.reverse := by rw [hr]; exact List.mem_cons_self a l
      exact List.mem_reverse.mp this
  rw [h2, List.reverse_reverse]

theorem pyInt_natToStr (n : Nat) : pyInt (natToStr n) = some (n : Int) := by
  have hdata : (natToStr n).data = natDigits n := rfl
  unfold pyInt
  rw [hdata, pyStrip_eq_self fun c hc => digit_not_whitespace (natDigits_digits n c hc)]
  obtain ⟨c, cs, hcs⟩ : ∃ c cs, natDigits n = c :: cs := by
    cases h' : natDigits n with
    | nil => exact absurd h' (natDigits_ne_nil n)
    | cons c cs => exact ⟨c, cs, rfl⟩
  have hdig : (digitVal c).isSome :=
    natDigits_digits n c (by rw [hcs]; exact List.mem_cons_self c cs)
  obtain ⟨hm, hp⟩ := digit_ne_sign hdig
  rw [hcs]
  simp only [pyIntList, if_neg hm, if_neg hp]
  rw [← hcs, parseDigits_natDigits]
  rfl

theorem pyInt_intToStr (i : Int) : pyInt (intToStr i) = some i := by
  cases i with
  | ofNat n => exact pyInt_natToStr n
  | negSucc n =>
    have hdata : (intToStr (.negSucc n)).data = '-' :: natDigits (n + 1) := rfl
    unfold pyInt
    rw [hdata]
    have hstrip : pyStrip ('-' :: natDigits (n + 1)) = '-' :: natDigits (n + 1) := by
      refine pyStrip_eq_self ?_
      intro c hc
      rcases List.mem_cons.mp hc with rfl | hc
      · decide
      · exact digit_not_whitespace (natDigits_digits (n + 1) c hc)
    rw [hstrip]
    simp only [pyIntList, if_pos rfl, parseDigits_natDigits]
    simp [Int.negSucc_eq]

/-! ### Lemmas: time-of-day formatting and parsing -/

theorem pad2_ok : ∀ n : Fin 100, parseDigits (pad2 n.val).data = some n.val ∧
    ((pad2 n.val).data.all fun c => (digitVal c).isSome) = true ∧
    (pad2 n.val).data.length = 2 := by decide

theorem takeWhile_append_cons (p : Char → Bool) (xs ys : List Char) (y : Char)
    (hxs : ∀ x ∈ xs, p x = true) (hy : p y = false) :
    (xs ++ y :: ys).takeWhile p = xs ∧ (xs ++ y :: ys).dropWhile p = y :: ys := by
  induction xs with
  | nil => simp [List.takeWhile_cons, List.dropWhile_cons, hy]
  | cons a l ih =>
    have ha : p a = true := hxs a (List.mem_cons_self a l)
    have ih' := ih fun x hx => hxs x (List.mem_cons_of_mem a hx)
    simp [List.takeWhile_cons, List.dropWhile_cons, ha, ih'.1, ih'.2]

theorem formatHM_data (t : Nat) :
    (formatHM t).data = (pad2 (t / 60)).data ++ ':' :: (pad2 (t % 60)).data := by
  simp [formatHM, String.data_append]

theorem parseHM_formatHM {t : Nat} (h : t < 1440) : parseHM (formatHM t) = some t := by
  have hh : t / 60 < 100 := by omega
  have hm : t % 60 < 100 := by omega
  have hp1 : parseDigits (pad2 (t / 60)).data = some (t / 60) := (pad2_ok ⟨_, hh⟩).1
  have hall1 : ((pad2 (t / 60)).data.all fun c => (digitVal c).isSome) = true :=
    (pad2_ok ⟨_, hh⟩).2.1
  have hlen1 : (pad2 (t / 60)).data.length = 2 := (pad2_ok ⟨_, hh⟩).2.2
  have hp2 : parseDigits (pad2 (t % 60)).data = some (t % 60) := (pad2_ok ⟨_, hm⟩).1
  have hall2 : ((pad2 (t % 60)).data.all fun c => (digitVal c).isSome) = true :=
    (pad2_ok ⟨_, hm⟩).2.1
  have hlen2 : (pad2 (t % 60)).data.length = 2 := (pad2_ok ⟨_, hm⟩).2.2
  have hsplit := takeWhile_append_cons (fun c => (digitVal c).isSome)
    ((pad2 (t / 60)).data) ((pad2 (t % 60)).data) ':'
    (fun x hx => by simpa using List.all_eq_true.mp hall1 x hx) (by decide)
  unfold parseHM parseHMList
  rw [formatHM_data, hsplit.2, hsplit.1]
  show hmOf (pad2 (t / 60)).data (pad2 (t % 60)).data = some t
  unfold hmOf
  rw [if_pos ⟨by omega, by omega, by omega, by omega, hall2⟩, hp1, hp2]
  show (if t / 60 ≤ 23 ∧ t % 60 ≤ 59 then some (t / 60 * 60 + t % 60) else none) = some t
  rw [if_pos ⟨by omega, by omega⟩]
  congr 1
  omega

theorem formatHM_data_len2 {t : Nat} (h : t < 1440) :
    ∃ a b c d, (formatHM t).data = [a, b, ':', c, d] := by
  have hh : t / 60 < 100 := by omega
  have hm : t % 60 < 100 := by omega
  obtain ⟨_, _, hlen1⟩ := pad2_ok ⟨t / 60, hh⟩
  obtain ⟨_, _, hlen2⟩ := pad2_ok ⟨t % 60, hm⟩
  obtain ⟨a, b, hab⟩ : ∃ a b, (pad2 (t / 60)).data = [a, b] := by
    match h1 : (pad2 (t / 60)).data with
    | [a, b] => exact ⟨a, b, rfl⟩
    | [] | [_] | _ :: _ :: _ :: _ => rw [h1] at hlen1; simp at hlen1
  obtain ⟨c, d, hcd⟩ : ∃ c d, (pad2 (t % 60)).data = [c, d] := by
    match h1 : (pad2 (t % 60)).data with
    | [c, d] => exact ⟨c, d, rfl⟩
    | [] | [_] | _ :: _ :: _ :: _ => rw [h1] at hlen2; simp at hlen2
  exact ⟨a, b, c, d, by rw [formatHM_data, hab, hcd]; rfl⟩

theorem formatHM_ne_header {t : Nat} (h : t < 1440) :
    formatHM t ≠ "time" ∧ formatHM t ≠ "count" := by
  obtain ⟨a, b, c, d, hdata⟩ := formatHM_data_len2 h
  constructor <;> intro heq <;>
    · have := congrArg String.data heq
      rw [hdata] at this
      simp [String.data] at this

theorem hmOf_lt {hd ms : List Char} {v : Nat} (h : hmOf hd ms = some v) : v < 1440 := by
  unfold hmOf at h
  split at h
  · split at h
    · split at h
      · rename_i hhm
        injection h with h
        omega
      · cases h
    · cases h
  · cases h

theorem parseHM_lt {s : String} {v : Nat} (h : parseHM s = some v) : v < 1440 := by
  unfold parseHM parseHMList at h
  split at h
  · exact hmOf_lt h
  · cases h

/-! ### Lemmas: the row loop and the file loop of `load_data` -/

theorem processRow_written {d : Int} {tod : Nat} (h : tod < 1440) (c : Int) :
    processRow d ("time", "count") (formatHM tod, intToStr c) =
      some (d * 1440 + (tod : Int), c) := by
  unfold processRow dictGet
  simp [pyInt_intToStr, parseHM_formatHM h]

theorem processRow_bounds {d : Int} {header row : String × String} {dt c : Int}
    (h : processRow d header row = some (dt, c)) :
    d * 1440 ≤ dt ∧ dt < d * 1440 + 1440 := by
  unfold processRow at h
  cases h1 : dictGet header row ("time") with
  | none => rw [h1] at h; cases h
  | some ts =>
    rw [h1] at h
    simp only [Option.pure_def, Option.bind_eq_bind, Option.some_bind] at h
    cases h2 : dictGet header row ("count") with
    | none => rw [h2] at h; cases h
    | some cs =>
      rw [h2] at h
      simp only [Option.pure_def, Option.bind_eq_bind, Option.some_bind] at h
      cases h3 : pyInt cs with
      | none => rw [h3] at h; cases h
      | some cnt =>
        rw [h3] at h
        simp only [Option.pure_def, Option.bind_eq_bind, Option.some_bind] at h
        cases h4 : parseHM ts with
        | none => rw [h4] at h; cases h
        | some hm =>
          rw [h4] at h
          have hlt : hm < 1440 := parseHM_lt h4
          simp only [Option.some_bind, Option.pure_def] at h
          injection h with h
          have h5 : dt = d * 1440 + (hm : Int) := (congrArg Prod.fst h).symm
          omega

theorem loadRows_eq (d cutoff : Int) (header : String × String)
    (rows : List (String × String)) (ts cs : List Int) :
    loadRows d cutoff header rows (ts, cs) =
      (ts ++ (rowPairs d cutoff header rows).map Prod.fst,
        cs ++ (rowPairs d cutoff header rows).map Prod.snd) := by
  induction rows generalizing ts cs with
  | nil => simp [loadRows, rowPairs]
  | cons r rs ih =>
    cases hr : processRow d header r with
    | none =>
      have hstep : loadRows d cutoff header (r :: rs) (ts, cs) =
          loadRows d cutoff header rs (ts, cs) := by
        simp only [loadRows, hr]
      have hrp : rowPairs d cutoff header (r :: rs) = rowPairs d cutoff header rs := by
        simp [rowPairs, List.filterMap_cons, hr]
      rw [hstep, ih, hrp]
    | some pr =>
      obtain ⟨dt, c⟩ := pr
      by_cases hc : cutoff ≤ dt
      · have hstep : loadRows d cutoff header (r :: rs) (ts, cs) =
            loadRows d cutoff header rs (ts ++ [dt], cs ++ [c]) := by
          simp only [loadRows, hr, if_pos hc]
        have hrp : rowPairs d cutoff header (r :: rs) =
            (dt, c) :: rowPairs d cutoff header rs := by
          simp [rowPairs, List.filterMap_cons, hr, List.filter_cons, hc]
        rw [hstep, ih, hrp]
        simp
      · have hstep : loadRows d cutoff header (r :: rs) (ts, cs) =
            loadRows d cutoff header rs (ts, cs) := by
          simp only [loadRows, hr, if_neg hc]
        have hrp : rowPairs d cutoff header (r :: rs) = rowPairs d cutoff header rs := by
          simp [rowPairs, List.filterMap_cons, hr, List.filter_cons, hc]
        rw [hstep, ih, hrp]

theorem loadFiles_eq (cutoff : Int) (ps : List Partition) (ts cs : List Int) :
    loadFiles cutoff ps (ts, cs) =
      (ts ++ (filesPairs cutoff ps).map Prod.fst,
        cs ++ (filesPairs cutoff ps).map Prod.snd) := by
  induction ps generalizing ts cs with
  | nil => simp [loadFiles, filesPairs]
  | cons p ps ih =>
    by_cases hskip : p.date < cutoff.fdiv 1440 - 1
    · have hkeep : keepFile cutoff p = false := by
        simp [keepFile, hskip]
      have hstep : loadFiles cutoff (p :: ps) (ts, cs) = loadFiles cutoff ps (ts, cs) := by
        simp only [loadFiles, if_pos hskip]
      have hf : filesPairs cutoff (p :: ps) = filesPairs cutoff ps := by
        simp [filesPairs, List.filter_cons, hkeep]
      rw [hstep, ih, hf]
    · have hkeep : keepFile cutoff p = true := by
        simp [keepFile, hskip]
      have hf : filesPairs cutoff (p :: ps) =
          partitionPairs cutoff p ++ filesPairs cutoff ps := by
        simp [filesPairs, List.filter_cons, hkeep]
      cases hl : p.lines with
      | nil =>
        have hpp : partitionPairs cutoff p = [] := by simp [partitionPairs, hl]
        have hstep : loadFiles cutoff (p :: ps) (ts, cs) = loadFiles cutoff ps (ts, cs) := by
          simp only [loadFiles, if_neg hskip, hl]
        rw [hstep, ih, hf, hpp]
        simp
      | cons header rows =>
        have hpp : partitionPairs cutoff p = rowPairs p.date cutoff header rows := by
          simp [partitionPairs, hl]
        have hstep : loadFiles cutoff (p :: ps) (ts, cs) =
            loadFiles cutoff ps (loadRows p.date cutoff header rows (ts, cs)) := by
          simp only [loadFiles, if_neg hskip, hl]
        rw [hstep, loadRows_eq, ih, hf, hpp]
        simp

theorem load_data_eq_pairs (now : Int) (hours : Nat) (store : Store) :
    load_data now hours store =
      ((loadPairs now hours store).map Prod.fst,
        (loadPairs now hours store).map Prod.snd) := by
  unfold load_data loadPairs
  rw [loadFiles_eq]
  simp

theorem loadFilesAll_eq (cutoff : Int) (ps : List Partition) (ts cs : List Int) :
    loadFilesAll cutoff ps (ts, cs) =
      (ts ++ (allPairs cutoff ps).map Prod.fst,
        cs ++ (allPairs cutoff ps).map Prod.snd) := by
  induction ps generalizing ts cs with
  | nil => simp [loadFilesAll, allPairs]
  | cons p ps ih =>
    have hf : allPairs cutoff (p :: ps) = partitionPairs cutoff p ++ allPairs cutoff ps := by
      simp [allPairs]
    cases hl : p.lines with
    | nil =>
      have hpp : partitionPairs cutoff p = [] := by simp [partitionPairs, hl]
      have hstep : loadFilesAll cutoff (p :: ps) (ts, cs) =
          loadFilesAll cutoff ps (ts, cs) := by
        simp only [loadFilesAll, hl]
      rw [hstep, ih, hf, hpp]
      simp
    | cons header rows =>
      have hpp : partitionPairs cutoff p = rowPairs p.date cutoff header rows := by
        simp [partitionPairs, hl]
      have hstep : loadFilesAll cutoff (p :: ps) (ts, cs) =
          loadFilesAll cutoff ps (loadRows p.date cutoff header rows (ts, cs)) := by
        simp only [loadFilesAll, hl]
      rw [hstep, loadRows_eq, ih, hf, hpp]
      simp

theorem fdiv_1440_bounds (x : Int) :
    1440 * x.fdiv 1440 ≤ x ∧ x < 1440 * x.fdiv 1440 + 1440 := by
  have h1 := Int.fdiv_add_fmod x 1440
  have h2 : 0 ≤ x.fmod 1440 := Int.fmod_nonneg' x (by norm_num)
  have h3 : x.fmod 1440 < 1440 := Int.fmod_lt_of_pos x (by norm_num)
  omega

theorem partitionPairs_eq_nil_of_skip {cutoff : Int} {p : Partition}
    (h : p.date < cutoff.fdiv 1440 - 1) : partitionPairs cutoff p = [] := by
  unfold partitionPairs
  cases hl : p.lines with
  | nil => rfl
  | cons header rows =>
    unfold rowPairs
    rw [List.filter_eq_nil_iff]
    rintro ⟨dt, c⟩ hmem
    obtain ⟨r, _, hr⟩ := List.mem_filterMap.mp hmem
    have hb := processRow_bounds hr
    have hcut := fdiv_1440_bounds cutoff
    simp only [decide_eq_true_eq]
    omega

theorem filesPairs_eq_allPairs (cutoff : Int) (ps : List Partition) :
    filesPairs cutoff ps = allPairs cutoff ps := by
  induction ps with
  | nil => rfl
  | cons p ps ih =>
    have ha : allPairs cutoff (p :: ps) = partitionPairs cutoff p ++ allPairs cutoff ps := by
      simp [allPairs]
    by_cases hskip : p.date < cutoff.fdiv 1440 - 1
    · have hkeep : keepFile cutoff p = false := by simp [keepFile, hskip]
      have hf : filesPairs cutoff (p :: ps) = filesPairs cutoff ps := by
        simp [filesPairs, List.filter_cons, hkeep]
      rw [hf, ih, ha, partitionPairs_eq_nil_of_skip hskip, List.nil_append]
    · have hkeep : keepFile cutoff p = true := by simp [keepFile, hskip]
      have hf : filesPairs cutoff (p :: ps) =
          partitionPairs cutoff p ++ filesPairs cutoff ps := by
        simp [filesPairs, List.filter_cons, hkeep]
      rw [hf, ih, ha]

/-! ### Lemmas: one recorded reading through the whole pipeline -/

theorem save_to_csv_fresh (w c : Int) :
    save_to_csv w c none =
      ⟨[("time", "count"), (formatHM (w.fmod 1440).toNat, intToStr c)]⟩ := rfl

theorem tod_spec (w : Int) :
    ((w.fmod 1440).toNat : Int) = w.fmod 1440 ∧ (w.fmod 1440).toNat < 1440 ∧
      w.fdiv 1440 * 1440 + ((w.fmod 1440).toNat : Int) = w := by
  have h1 := Int.fdiv_add_fmod w 1440
  have h2 : 0 ≤ w.fmod 1440 := Int.fmod_nonneg' w (by norm_num)
  have h3 : w.fmod 1440 < 1440 := Int.fmod_lt_of_pos w (by norm_num)
  have h4 : ((w.fmod 1440).toNat : Int) = w.fmod 1440 := Int.toNat_of_nonneg h2
  refine ⟨h4, ?_, by omega⟩
  omega

theorem sortStore_singleton (p : Partition) : sortStore [p] = [p] := rfl

theorem partitionPairs_single_written (cutoff w c : Int) :
    partitionPairs cutoff ⟨w.fdiv 1440, (save_to_csv w c none).lines⟩ =
      if cutoff ≤ w then [(w, c)] else [] := by
  obtain ⟨htod, hlt, hsum⟩ := tod_spec w
  have hrow := processRow_written (d := w.fdiv 1440) hlt c
  rw [htod] at hrow
  have hdt : w.fdiv 1440 * 1440 + w.fmod 1440 = w := by rw [← htod]; exact hsum
  rw [hdt] at hrow
  simp only [partitionPairs, save_to_csv_fresh, rowPairs, List.filterMap_cons,
    List.filterMap_nil, hrow, List.filter_cons]
  by_cases hc : cutoff ≤ w
  · simp [hc]
  · simp [hc]

theorem load_data_single_written (now w c : Int) (hours : Nat) :
    load_data now hours [⟨w.fdiv 1440, (save_to_csv w c none).lines⟩] =
      if now - hours * 60 ≤ w then ([w], [c]) else ([], []) := by
  rw [load_data_eq_pairs]
  have hpairs : loadPairs now hours [⟨w.fdiv 1440, (save_to_csv w c none).lines⟩] =
      if now - hours * 60 ≤ w then [(w, c)] else [] := by
    unfold loadPairs
    rw [sortStore_singleton]
    rw [filesPairs_eq_allPairs]
    have ha : allPairs (now - hours * 60) [⟨w.fdiv 1440, (save_to_csv w c none).lines⟩] =
        partitionPairs (now - hours * 60) ⟨w.fdiv 1440, (save_to_csv w c none).lines⟩ := by
      simp [allPairs]
    rw [ha, partitionPairs_single_written]
  rw [hpairs]
  by_cases hc : now - hours * 60 ≤ w
  · simp [hc]
  · simp [hc]

/-! ### Lemmas: ordering of the combined series -/

theorem rowPairs_times (d cutoff : Int) (header : String × String)
    (rows : List (String × String)) :
    (rowPairs d cutoff header rows).map Prod.fst =
      (rows.filterMap fun r => (processRow d header r).map Prod.fst).filter
        fun t => decide (cutoff ≤ t) := by
  induction rows with
  | nil => rfl
  | cons r rs ih =>
    cases hr : processRow d header r with
    | none =>
      simp only [rowPairs, List.filterMap_cons, hr] at ih ⊢
      exact ih
    | some pr =>
      obtain ⟨dt, c⟩ := pr
      by_cases hc : cutoff ≤ dt
      · simp only [rowPairs, List.filterMap_cons, hr, Option.map_some',
          List.filter_cons] at ih ⊢
        simp [hc, ih]
      · simp only [rowPairs, List.filterMap_cons, hr, Option.map_some',
          List.filter_cons] at ih ⊢
        simp [hc, ih]

theorem partitionPairs_times (cutoff : Int) (p : Partition) :
    (partitionPairs cutoff p).map Prod.fst =
      (partitionTimes p).filter fun t => decide (cutoff ≤ t) := by
  cases hl : p.lines with
  | nil => simp [partitionPairs, partitionTimes, hl]
  | cons header rows =>
    simp only [partitionPairs, partitionTimes, hl, rowPairs_times]

theorem mem_partitionTimes_bounds {p : Partition} {t : Int}
    (h : t ∈ partitionTimes p) :
    p.date * 1440 ≤ t ∧ t < p.date * 1440 + 1440 := by
  unfold partitionTimes at h
  rcases hl : p.lines with _ | ⟨header, rows⟩
  · rw [hl] at h; cases h
  · rw [hl] at h
    obtain ⟨r, _, hr⟩ := List.mem_filterMap.mp h
    cases hpr : processRow p.date header r with
    | none => rw [hpr] at hr; cases hr
    | some pr =>
      rw [hpr] at hr
      obtain ⟨dt, c⟩ := pr
      have hb := processRow_bounds hpr
      simp only [Option.map_some'] at hr
      injection hr with hr
      omega

theorem mem_partitionPairs_fst_bounds {cutoff : Int} {p : Partition} {t : Int}
    (h : t ∈ (partitionPairs cutoff p).map Prod.fst) :
    p.date * 1440 ≤ t ∧ t < p.date * 1440 + 1440 := by
  rw [partitionPairs_times] at h
  exact mem_partitionTimes_bounds (List.mem_of_mem_filter h)

theorem partitionPairs_times_sorted {cutoff : Int} {p : Partition}
    (h : (partitionTimes p).Sorted (· ≤ ·)) :
    ((partitionPairs cutoff p).map Prod.fst).Sorted (· ≤ ·) := by
  rw [partitionPairs_times]
  exact h.sublist (List.filter_sublist _)

theorem allPairs_times_sorted {cutoff : Int} {ps : List Partition}
    (hdates : ps.Pairwise fun p q => p.date < q.date)
    (hrows : ∀ p ∈ ps, (partitionTimes p).Sorted (· ≤ ·)) :
    ((allPairs cutoff ps).map Prod.fst).Sorted (· ≤ ·) := by
  induction ps with
  | nil => simp [allPairs]
  | cons p ps ih =>
    have hsplit : (allPairs cutoff (p :: ps)).map Prod.fst =
        (partitionPairs cutoff p).map Prod.fst ++ (allPairs cutoff ps).map Prod.fst := by
      simp [allPairs]
    rw [hsplit]
    unfold List.Sorted
    rw [List.pairwise_append]
    refine ⟨partitionPairs_times_sorted (hrows p (List.mem_cons_self p ps)),
      ih hdates.of_cons (fun q hq => hrows q (List.mem_cons_of_mem p hq)), ?_⟩
    intro x hx y hy
    have hxb := mem_partitionPairs_fst_bounds hx
    obtain ⟨l, hl, hyl⟩ : ∃ l ∈ (ps.map (partitionPairs cutoff)), y ∈ l.map Prod.fst := by
      unfold allPairs at hy
      rw [List.map_flatten] at hy
      obtain ⟨l', hl', hyl'⟩ := List.mem_flatten.mp hy
      obtain ⟨l, hl, rfl⟩ := List.mem_map.mp hl'
      exact ⟨l, hl, hyl'⟩
    obtain ⟨q, hq, rfl⟩ := List.mem_map.mp hl
    have hyb := mem_partitionPairs_fst_bounds hyl
    have hpq : p.date < q.date := (List.pairwise_cons.mp hdates).1 q hq
    omega

theorem sortStore_perm (s : Store) : List.Perm (sortStore s) s :=
  List.perm_insertionSort dateLE s

theorem sortStore_sorted (s : Store) : (sortStore s).Pairwise dateLE :=
  List.sorted_insertionSort dateLE s

theorem sortStore_strict {s : Store} (h : (s.map Partition.date).Nodup) :
    (sortStore s).Pairwise fun p q => p.date < q.date := by
  have hs : (sortStore s).Pairwise dateLE := sortStore_sorted s
  have hnd : ((sortStore s).map Partition.date).Nodup :=
    (((sortStore_perm s).map Partition.date).nodup_iff).mpr h
  have hne : (sortStore s).Pairwise fun p q => p.date ≠ q.date :=
    List.pairwise_map.mp hnd
  exact (hs.and hne).imp fun hpq => lt_of_le_of_ne hpq.1 hpq.2

theorem load_data_sorted {now : Int} {hours : Nat} {store : Store}
    (hnd : (store.map Partition.date).Nodup)
    (hrows : ∀ p ∈ store, (partitionTimes p).Sorted (· ≤ ·)) :
    ((load_data now hours store).1).Sorted (· ≤ ·) := by
  rw [load_data_eq_pairs]
  show ((loadPairs now hours store).map Prod.fst).Sorted (· ≤ ·)
  have hfp : loadPairs now hours store =
      allPairs (now - hours * 60) ((sortStore store).filter
        (keepFile (now - hours * 60))) := rfl
  rw [hfp]
  refine allPairs_times_sorted ?_ ?_
  · exact (sortStore_strict hnd).sublist (List.filter_sublist _)
  · intro p hp
    exact hrows p ((sortStore_perm store).mem_iff.mp (List.mem_of_mem_filter hp))

theorem loadPairs_singleton {now : Int} {hours : Nat} {p : Partition}
    (hkeep : keepFile (now - hours * 60) p = true) :
    loadPairs now hours [p] = partitionPairs (now - hours * 60) p := by
  unfold loadPairs
  rw [sortStore_singleton]
  simp [filesPairs, List.filter_cons, hkeep]

theorem processRow_good {d : Int} {row : String × String} {tod : Nat} {c : Int}
    (ht : parseHM row.1 = some tod) (hc : pyInt row.2 = some c) :
    processRow d ("time", "count") row = some (d * 1440 + (tod : Int), c) := by
  unfold processRow dictGet
  simp [ht, hc]

theorem processRow_bad {d : Int} {row : String × String}
    (h : pyInt row.2 = none ∨ parseHM row.1 = none) :
    processRow d ("time", "count") row = none := by
  unfold processRow dictGet
  rcases h with h | h
  · simp [h]
  · cases hpi : pyInt row.2 <;> simp [hpi, h]

theorem keepFile_of_covered {cutoff d : Int} {tod : Nat} (htod : tod < 1440)
    (hwin : cutoff ≤ d * 1440 + tod) (p : Partition) (hd : p.date = d) :
    keepFile cutoff p = true := by
  have hb := fdiv_1440_bounds cutoff
  simp only [keepFile, hd, Bool.not_eq_true']
  simp only [decide_eq_false_iff_not]
  omega

/-! ## The claims -/

/-- C1, counterexample to the claim as stated: the Collector records a
reading at wall-clock minute 1 (count 5); the Reporter runs at
`now = 0` with a 96-hour window, so the window `[now - window, now]`
is `[-5760, 0]` and excludes the reading's timestamp 1; yet `load`
returns the reading, because the per-row filter only checks the lower
bound `dt >= cutoff`. -/
theorem C1_counterexample :
    load_data 0 96 [⟨(1 : Int).fdiv 1440, (save_to_csv 1 5 none).lines⟩] = ([1], [5]) ∧
      ¬(0 - 96 * 60 ≤ (1 : Int) ∧ (1 : Int) ≤ 0) := by
  constructor
  · decide
  · decide

/-- C1 (amended): a reading recorded by `save_to_csv` at minute `w` into
the partition for `w`'s date is returned by `load_data` run at `now`
with a window of `hours` exactly when `now - hours*60 ≤ w` — the load
applies only the window's lower bound, so coverage by
`[now - window, now]` is equivalent to presence only for readings
timestamped at or before `now`. At the boundary, a reading at exactly
`now - hours*60` is included and a reading one minute earlier is
excluded. -/
theorem C1_round_trip (now w c : Int) (hours : Nat) :
    (now - hours * 60 ≤ w →
      load_data now hours [⟨w.fdiv 1440, (save_to_csv w c none).lines⟩] = ([w], [c])) ∧
    (w < now - hours * 60 →
      load_data now hours [⟨w.fdiv 1440, (save_to_csv w c none).lines⟩] = ([], [])) ∧
    load_data now hours [⟨(now - hours * 60).fdiv 1440,
      (save_to_csv (now - hours * 60) c none).lines⟩] = ([now - hours * 60], [c]) ∧
    load_data now hours [⟨(now - hours * 60 - 1).fdiv 1440,
      (save_to_csv (now - hours * 60 - 1) c none).lines⟩] = ([], []) := by
  refine ⟨fun h => ?_, fun h => ?_, ?_, ?_⟩ <;> rw [load_data_single_written]
  · rw [if_pos h]
  · rw [if_neg (by omega)]
  · rw [if_pos (by omega)]
  · rw [if_neg (by omega)]

/-- Witness for C1: with `now = 5760` and a 96-hour window the cutoff is
0; a reading at minute 5 is returned, a reading at minute −1 is not. -/
theorem C1_round_trip_witness :
    load_data 5760 96 [⟨(5 : Int).fdiv 1440, (save_to_csv 5 7 none).lines⟩] = ([5], [7]) ∧
    load_data 5760 96 [⟨(-1 : Int).fdiv 1440, (save_to_csv (-1) 7 none).lines⟩] = ([], []) :=
  ⟨(C1_round_trip 5760 5 7 96).1 (by decide),
    (C1_round_trip 5760 (-1) 7 96).2.1 (by decide)⟩

/-- C2, counterexample to the claim as stated: a response with the
non-2xx status 300 and a JSON body containing `number` makes
`fetch_gym_load` return the number rather than no value —
`raise_for_status` only raises for statuses 400–599. -/
theorem C2_counterexample :
    fetch_gym_load (.resp 300 (some [("number", 7)])) = some 7 ∧
      ¬(200 ≤ 300 ∧ 300 ≤ 299) := by
  constructor
  · rfl
  · decide

/-- C2 (amended): `fetch_gym_load` returns the integer `number` field
for every response whose status is outside 400–599 (2xx or not) and
whose body is a JSON object containing the field; it returns no value
on a network failure, on any 4xx/5xx status, on a non-JSON body, and on
a missing `number` field. -/
theorem C2_fetch (s : Nat) (obj : List (String × Int)) (n : Int) :
    (fetch_gym_load .netFail = none) ∧
    (∀ b, 400 ≤ s → s < 600 → fetch_gym_load (.resp s b) = none) ∧
    (¬(400 ≤ s ∧ s < 600) → fetch_gym_load (.resp s none) = none) ∧
    (¬(400 ≤ s ∧ s < 600) → pyGet obj "number" = some n →
      fetch_gym_load (.resp s (some obj)) = some n) ∧
    (¬(400 ≤ s ∧ s < 600) → pyGet obj "number" = none →
      fetch_gym_load (.resp s (some obj)) = none) := by
  unfold fetch_gym_load fetch_gym_load_logged raiseForStatus
  refine ⟨rfl, fun b h1 h2 => ?_, fun h => ?_, fun h hn => ?_, fun h hn => ?_⟩
  · simp [h1, h2]
  · simp [h]
  · simp [h, hn]
  · simp [h, hn]

/-- Witness for C2: concrete instances of each branch. -/
theorem C2_fetch_witness :
    fetch_gym_load (.resp 200 (some [("number", 42)])) = some 42 ∧
    fetch_gym_load (.resp 404 (some [("number", 42)])) = none ∧
    fetch_gym_load (.resp 200 none) = none ∧
    fetch_gym_load (.resp 200 (some [("other", 1)])) = none :=
  ⟨(C2_fetch 200 [("number", 42)] 42).2.2.2.1 (by decide) (by decide),
    (C2_fetch 404 [("number", 42)] 42).2.1 (some [("number", 42)]) (by decide) (by decide),
    (C2_fetch 200 [] 0).2.2.1 (by decide),
    (C2_fetch 200 [("other", 1)] 0).2.2.2.2 (by decide) (by decide)⟩

/-- C3: recording twice into a fresh partition file yields exactly one
`time,count` header line followed by the two data rows in insertion
order; neither data row equals the header line. -/
theorem C3_header_once (w1 c1 w2 c2 : Int) :
    (save_to_csv w2 c2 (some (save_to_csv w1 c1 none))).lines =
      [("time", "count"),
        (formatHM (w1.fmod 1440).toNat, intToStr c1),
        (formatHM (w2.fmod 1440).toNat, intToStr c2)] ∧
    (formatHM (w1.fmod 1440).toNat, intToStr c1) ≠ ("time", "count") ∧
    (formatHM (w2.fmod 1440).toNat, intToStr c2) ≠ ("time", "count") :=
  ⟨rfl,
    fun h => (formatHM_ne_header (tod_spec w1).2.1).1 (congrArg Prod.fst h),
    fun h => (formatHM_ne_header (tod_spec w2).2.1).1 (congrArg Prod.fst h)⟩

/-- C4: a partition holding one well-formed row (parsable time, integer
count, inside the window) and one malformed row (non-integer count, or
unparseable time) loads to exactly the well-formed row, in either file
order — the malformed row is skipped without aborting the rest of the
load. -/
theorem C4_malformed_row_skipped (now d : Int) (hours : Nat)
    (good bad : String × String) (tod : Nat) (c : Int)
    (hgt : parseHM good.1 = some tod) (hgc : pyInt good.2 = some c)
    (hwin : now - hours * 60 ≤ d * 1440 + tod)
    (hbad : pyInt bad.2 = none ∨ parseHM bad.1 = none) :
    load_data now hours [⟨d, [("time", "count"), good, bad]⟩] =
      ([d * 1440 + (tod : Int)], [c]) ∧
    load_data now hours [⟨d, [("time", "count"), bad, good]⟩] =
      ([d * 1440 + (tod : Int)], [c]) := by
  have htod : tod < 1440 := parseHM_lt hgt
  have hg := processRow_good (d := d) hgt hgc
  have hb := processRow_bad (d := d) hbad
  constructor
  · rw [load_data_eq_pairs,
      loadPairs_singleton (keepFile_of_covered htod hwin ⟨d, _⟩ rfl)]
    have hpp : partitionPairs (now - hours * 60)
        ⟨d, [("time", "count"), good, bad]⟩ = [(d * 1440 + (tod : Int), c)] := by
      simp only [partitionPairs, rowPairs, List.filterMap_cons, hg, hb,
        List.filterMap_nil]
      rw [List.filter_cons_of_pos (by simpa using hwin)]
      rfl
    rw [hpp]
    rfl
  · rw [load_data_eq_pairs,
      loadPairs_singleton (keepFile_of_covered htod hwin ⟨d, _⟩ rfl)]
    have hpp : partitionPairs (now - hours * 60)
        ⟨d, [("time", "count"), bad, good]⟩ = [(d * 1440 + (tod : Int), c)] := by
      simp only [partitionPairs, rowPairs, List.filterMap_cons, hg, hb,
        List.filterMap_nil]
      rw [List.filter_cons_of_pos (by simpa using hwin)]
      rfl
    rw [hpp]
    rfl

/-- Witness for C4: date 3, a good row `10:00,17` and a bad row
`10:05,x`, loaded at `now` = minute 5760 of day 4 with a 96-hour
window. -/
theorem C4_malformed_row_skipped_witness :
    load_data (4 * 1440) 96
        [⟨3, [("time", "count"), ("10:00", "17"), ("10:05", "x")]⟩] =
      ([3 * 1440 + (600 : Int)], [17]) ∧
    load_data (4 * 1440) 96
        [⟨3, [("time", "count"), ("10:05", "x"), ("10:00", "17")]⟩] =
      ([3 * 1440 + (600 : Int)], [17]) :=
  C4_malformed_row_skipped (4 * 1440) 3 96 ("10:00", "17") ("10:05", "x") 600 17
    (by decide) (by decide) (by decide) (Or.inl (by decide))

/-- C5: if the store has one partition per date (distinct dates) and
each partition's parseable rows are in chronological time-of-day order,
then the combined timestamp sequence `load_data` returns is
nondecreasing — partitions are visited in ascending date order and each
partition's kept rows stay in file order. -/
theorem C5_sorted (now : Int) (hours : Nat) (store : Store)
    (hnd : (store.map Partition.date).Nodup)
    (hchron : ∀ p ∈ store, (partitionTimes p).Sorted (· ≤ ·)) :
    ((load_data now hours store).1).Sorted (· ≤ ·) :=
  load_data_sorted hnd hchron

/-- Witness for C5: two partitions given out of date order, each with
chronological rows; the loaded timestamps come out sorted. -/
theorem C5_sorted_witness :
    ((load_data (2 * 1440) 96
        [⟨1, [("time", "count"), ("00:05", "3"), ("01:00", "4")]⟩,
          ⟨0, [("time", "count"), ("10:00", "2")]⟩]).1).Sorted (· ≤ ·) :=
  C5_sorted (2 * 1440) 96 _ (by decide) (by decide)

/-- C6: removing the partition-level date pre-filter (skip files dated
more than one day before the cutoff's date) never changes the result of
`load_data`: every row of a skipped partition fails the per-row filter
`dt >= cutoff` anyway. -/
theorem C6_prefilter_equiv (now : Int) (hours : Nat) (store : Store) :
    load_data now hours store = load_data_unfiltered now hours store := by
  unfold load_data load_data_unfiltered
  rw [loadFiles_eq, loadFilesAll_eq, filesPairs_eq_allPairs]

/-- C7, counterexample to the claim as stated: a 200 response whose JSON
object lacks the `number` field is a missing-field failure —
`fetch_gym_load` yields no reading but emits no error message, because
`dict.get` returns `None` without raising and the `except` branch that
prints is never reached. -/
theorem C7_counterexample :
    fetch_gym_load_logged (.resp 200 (some [])) = (none, false) ∧
      pyGet [] "number" = none :=
  ⟨rfl, rfl⟩

/-- C7 (amended): network failures, 4xx/5xx statuses and non-JSON
bodies are reported by `fetch_gym_load` itself (the except branch
prints) and yield no reading; a missing `number` field yields no
reading silently from `fetch_gym_load`, and the failure is reported by
the collector's `main`, which prints the failure notice and writes
nothing; every failure path returns normally rather than raising. -/
theorem C7_failure_reporting (s : Nat) (obj : List (String × Int)) :
    (fetch_gym_load_logged .netFail = (none, true)) ∧
    (∀ b, 400 ≤ s → s < 600 → fetch_gym_load_logged (.resp s b) = (none, true)) ∧
    (¬(400 ≤ s ∧ s < 600) → fetch_gym_load_logged (.resp s none) = (none, true)) ∧
    (¬(400 ≤ s ∧ s < 600) → pyGet obj "number" = none →
      fetch_gym_load_logged (.resp s (some obj)) = (none, false)) ∧
    (∀ input now f, fetch_gym_load input = none →
      collect_main input now f =
        (f, (if (fetch_gym_load_logged input).2 then [CollectMsg.errorFetching]
          else []) ++ [CollectMsg.failedToFetch])) := by
  refine ⟨rfl, fun b h1 h2 => ?_, fun h => ?_, fun h hn => ?_, fun input now f hf => ?_⟩
  · simp [fetch_gym_load_logged, raiseForStatus, h1, h2]
  · simp [fetch_gym_load_logged, raiseForStatus, h]
  · simp [fetch_gym_load_logged, raiseForStatus, h, hn]
  · unfold collect_main
    unfold fetch_gym_load at hf
    cases hfl : fetch_gym_load_logged input with
    | mk v logged =>
      rw [hfl] at hf
      simp only at hf
      subst hf
      rfl

/-- Witness for C7: a 503 status is logged by fetch; a network failure
run through the collector's `main` prints the error and the failure
notice and leaves the store untouched. -/
theorem C7_failure_reporting_witness :
    fetch_gym_load_logged (.resp 503 none) = (none, true) ∧
    collect_main .netFail 0 none =
      (none, [CollectMsg.errorFetching, CollectMsg.failedToFetch]) := by
  refine ⟨(C7_failure_reporting 503 []).2.1 none (by decide) (by decide), ?_⟩
  have h := (C7_failure_reporting 0 []).2.2.2.2 .netFail 0 none rfl
  simpa using h

/-- C8: a store with no partition files loads to the empty pair of
series, and whenever the loaded series is empty `plot_chart` reports
"no data" and writes no artifact. -/
theorem C8_empty (now : Int) (hours : Nat) (store : Store)
    (h : (load_data now hours store).1 = []) :
    plot_chart (load_data now hours store).1 (load_data now hours store).2 =
      RenderResult.noData ∧
    load_data now hours ([] : Store) = ([], []) ∧
    plot_chart [] [] = RenderResult.noData := by
  refine ⟨?_, rfl, rfl⟩
  rw [h]
  rfl

/-- Witness for C8: the empty store, loaded and rendered. -/
theorem C8_empty_witness :
    plot_chart (load_data 0 96 ([] : Store)).1 (load_data 0 96 ([] : Store)).2 =
      RenderResult.noData :=
  (C8_empty 0 96 [] rfl).1

/-- C9: on a nonempty series `plot_chart` saves a chart whose bar
colours classify each count against the fixed threshold 140: red
exactly when the count is at least 140 (the threshold is inclusive on
the above side), green exactly below; in particular 139 is green and
140 is red. -/
theorem C9_threshold (timestamps counts : List Int) (h : timestamps ≠ []) :
    plot_chart timestamps counts =
      RenderResult.saved ⟨counts.map colorFor, counts.length⟩ ∧
    (∀ c ∈ counts, (colorFor c = "#e74c3c" ↔ 140 ≤ c) ∧
      (colorFor c = "#2ecc71" ↔ c < 140)) ∧
    colorFor 139 = "#2ecc71" ∧ colorFor 140 = "#e74c3c" ∧ THRESHOLD = 140 := by
  refine ⟨?_, fun c _ => ⟨?_, ?_⟩, rfl, rfl, rfl⟩
  · unfold plot_chart
    rw [if_neg]
    simpa [List.isEmpty_iff] using h
  · unfold colorFor THRESHOLD
    by_cases h1 : (140 : Int) ≤ c
    · simp [h1]
    · simp only [if_neg h1]
      constructor
      · intro hcol
        exact absurd hcol (by decide)
      · intro hc
        omega
  · unfold colorFor THRESHOLD
    by_cases h1 : (140 : Int) ≤ c
    · simp only [if_pos h1]
      constructor
      · intro hcol
        exact absurd hcol (by decide)
      · intro hc
        omega
    · simp only [if_neg h1]
      constructor
      · intro _
        omega
      · intro _
        trivial

/-- Witness for C9: a one-point series at count 139 renders green. -/
theorem C9_threshold_witness :
    plot_chart [0] [139] = RenderResult.saved ⟨["#2ecc71"], 1⟩ := by
  have h := (C9_threshold [0] [139] (by decide)).1
  simpa [colorFor, THRESHOLD] using h

/-- C10: `load_data` returns the projections of one list of
(timestamp, count) pairs, each pair coming from a single surviving log
row — so the two lists always have equal length and the i-th timestamp
and i-th count originate from the same row. -/
theorem C10_parallel_lists (now : Int) (hours : Nat) (store : Store) :
    load_data now hours store =
      ((loadPairs now hours store).map Prod.fst,
        (loadPairs now hours store).map Prod.snd) ∧
    (load_data now hours store).1.length = (load_data now hours store).2.length := by
  refine ⟨load_data_eq_pairs now hours store, ?_⟩
  rw [load_data_eq_pairs]
  simp

end Gym
